import Mathlib

/-!
Verification of the metric-computation engine and cross-validation
orchestrator of the ATM repository (`atm/metrics.py`).

The Python source is shallowly embedded: numeric values are rationals,
possibly-NaN floats are `Option ℚ` (with `none` standing for NaN),
matrices are lists of rows, and Python dicts become ordered association
lists.  The statistical primitives from sklearn (accuracy, kappa, F1,
MCC, AUC, average precision, curve extraction) and the repository's
`atm.constants` module are external to `src/`; they are modelled from the
spec's description of their contracts and marked as such in their doc
comments.
-/

set_option maxHeartbeats 1000000

/-- Python 3 `int(round x)`: round half to even (banker's rounding). -/
def pyRound (q : ℚ) : Int :=
  let f := ⌊q⌋
  let d := q - f
  if d < 1/2 then f
  else if 1/2 < d then f + 1
  else if f % 2 = 0 then f else f + 1

/-- Python slice `l[:k]`: the first `k` elements for `k ≥ 0`, and all but the
last `-k` elements for `k < 0`. -/
def pySlice {α : Type} (k : Int) (l : List α) : List α :=
  if 0 ≤ k then l.take k.toNat else l.take (l.length - (-k).toNat)

/-- Insert a value into an ascending duplicate-free list, keeping it
ascending and duplicate-free. -/
def insertSorted {α : Type} [LinearOrder α] (a : α) : List α → List α
  | [] => [a]
  | b :: t => if a < b then a :: b :: t else if a = b then b :: t else b :: insertSorted a t

/-- Model of `np.unique`: the distinct values of a list in ascending order. -/
def sortedDedup {α : Type} [LinearOrder α] (l : List α) : List α :=
  l.foldr insertSorted []

theorem mem_insertSorted {α : Type} [LinearOrder α] (a x : α) (l : List α) :
    x ∈ insertSorted a l ↔ x = a ∨ x ∈ l := by
  induction l with
  | nil => simp [insertSorted]
  | cons b t ih =>
    simp only [insertSorted]
    split_ifs with h1 h2
    · simp
    · subst h2
      simp only [List.mem_cons]
      tauto
    · simp only [List.mem_cons, ih]
      tauto

theorem pairwise_insertSorted {α : Type} [LinearOrder α] (a : α) (l : List α)
    (h : l.Pairwise (· < ·)) : (insertSorted a l).Pairwise (· < ·) := by
  induction l with
  | nil => simp [insertSorted]
  | cons b t ih =>
    simp only [insertSorted]
    rcases List.pairwise_cons.mp h with ⟨hb, ht⟩
    split_ifs with h1 h2
    · refine List.pairwise_cons.mpr ⟨?_, h⟩
      intro x hx
      rcases List.mem_cons.mp hx with rfl | hx
      · exact h1
      · exact lt_trans h1 (hb x hx)
    · exact h
    · have hba : b < a := lt_of_le_of_ne (not_lt.mp h1) (Ne.symm h2)
      refine List.pairwise_cons.mpr ⟨?_, ih ht⟩
      intro x hx
      rcases (mem_insertSorted a x t).mp hx with rfl | hx
      · exact hba
      · exact hb x hx

theorem pairwise_sortedDedup {α : Type} [LinearOrder α] (l : List α) :
    (sortedDedup l).Pairwise (· < ·) := by
  induction l with
  | nil => simp [sortedDedup]
  | cons a t ih => exact pairwise_insertSorted a _ ih

theorem mem_sortedDedup {α : Type} [LinearOrder α] (x : α) (l : List α) :
    x ∈ sortedDedup l ↔ x ∈ l := by
  induction l with
  | nil => simp [sortedDedup]
  | cons a t ih =>
    show x ∈ insertSorted a (sortedDedup t) ↔ _
    rw [mem_insertSorted]
    simp [ih]

theorem countP_eq_one_of_pairwise {α : Type} [LinearOrder α] (x : α) :
    ∀ m : List α, m.Pairwise (· < ·) → x ∈ m →
      m.countP (fun c => decide (x = c)) = 1 := by
  intro m
  induction m with
  | nil => intro _ h; cases h
  | cons b t ih =>
    intro hp hx
    rcases List.pairwise_cons.mp hp with ⟨hb, ht⟩
    rcases List.mem_cons.mp hx with rfl | hx
    · rw [List.countP_cons]
      have h0 : t.countP (fun c => decide (x = c)) = 0 := by
        apply List.countP_eq_zero.mpr
        intro c hc
        have : x < c := hb c hc
        simp [ne_of_lt this]
      simp [h0]
    · have hne : x ≠ b := by
        intro h
        have hbx := hb x hx
        rw [h] at hbx
        exact lt_irrefl b hbx
      rw [List.countP_cons]
      simp [Ne.symm hne, hne, ih ht hx]

/-- Insert a rational into a descending duplicate-free list. -/
def insertSortedDesc (a : ℚ) : List ℚ → List ℚ
  | [] => [a]
  | b :: t => if b < a then a :: b :: t else if a = b then b :: t else b :: insertSortedDesc a t

/-- Distinct values of a list of scores in descending order. -/
def sortedDedupDesc (l : List ℚ) : List ℚ :=
  l.foldr insertSortedDesc []

theorem mem_insertSortedDesc (a x : ℚ) (l : List ℚ) :
    x ∈ insertSortedDesc a l ↔ x = a ∨ x ∈ l := by
  induction l with
  | nil => simp [insertSortedDesc]
  | cons b t ih =>
    simp only [insertSortedDesc]
    split_ifs with h1 h2
    · simp
    · subst h2
      simp only [List.mem_cons]
      tauto
    · simp only [List.mem_cons, ih]
      tauto

theorem pairwise_insertSortedDesc (a : ℚ) (l : List ℚ)
    (h : l.Pairwise (fun u v => v < u)) :
    (insertSortedDesc a l).Pairwise (fun u v => v < u) := by
  induction l with
  | nil => simp [insertSortedDesc]
  | cons b t ih =>
    simp only [insertSortedDesc]
    rcases List.pairwise_cons.mp h with ⟨hb, ht⟩
    split_ifs with h1 h2
    · refine List.pairwise_cons.mpr ⟨?_, h⟩
      intro x hx
      rcases List.mem_cons.mp hx with rfl | hx
      · exact h1
      · exact lt_trans (hb x hx) h1
    · exact h
    · have hab : a < b := lt_of_le_of_ne (not_lt.mp h1) h2
      refine List.pairwise_cons.mpr ⟨?_, ih ht⟩
      intro x hx
      rcases (mem_insertSortedDesc a x t).mp hx with rfl | hx
      · exact hab
      · exact hb x hx

theorem pairwise_sortedDedupDesc (l : List ℚ) :
    (sortedDedupDesc l).Pairwise (fun u v => v < u) := by
  induction l with
  | nil => simp [sortedDedupDesc]
  | cons a t ih => exact pairwise_insertSortedDesc a _ ih

/-- Strict precedence of keys in a descending argsort: a present (`some`)
score beats NaN (`none`), and larger scores come first.  This mirrors
`np.argsort(-mat)`, which orders ascending by the negated score with NaN
sorted last. -/
def keyLt (a b : Option ℚ) : Bool :=
  match a, b with
  | some x, some y => decide (y < x)
  | some _, none => true
  | none, _ => false

/-- Insert an index into an index list sorted by `keyLt` on its key;
insertion after equal keys makes the sort stable. -/
def ordInsert (key : Nat → Option ℚ) (i : Nat) : List Nat → List Nat
  | [] => [i]
  | j :: t => if keyLt (key i) (key j) then i :: j :: t else j :: ordInsert key i t

/-- Model of `np.argsort (-row)`: indices of the row sorted by descending
score, NaN entries last. -/
def argsortDesc (row : List (Option ℚ)) : List Nat :=
  (List.range row.length).foldl (fun acc i => ordInsert (fun m => row.getD m none) i acc) []

theorem mem_ordInsert (key : Nat → Option ℚ) (i x : Nat) (l : List Nat) :
    x ∈ ordInsert key i l ↔ x = i ∨ x ∈ l := by
  induction l with
  | nil => simp [ordInsert]
  | cons j t ih =>
    simp only [ordInsert]
    split_ifs with h1
    · simp
    · simp only [List.mem_cons, ih]
      tauto

theorem length_ordInsert (key : Nat → Option ℚ) (i : Nat) (l : List Nat) :
    (ordInsert key i l).length = l.length + 1 := by
  induction l with
  | nil => simp [ordInsert]
  | cons j t ih =>
    simp only [ordInsert]
    split_ifs with h1
    · simp
    · simp [ih]

theorem mem_foldl_ordInsert (key : Nat → Option ℚ) :
    ∀ (is : List Nat) (acc : List Nat) (x : Nat),
      x ∈ is.foldl (fun a i => ordInsert key i a) acc ↔ x ∈ is ∨ x ∈ acc := by
  intro is
  induction is with
  | nil => simp
  | cons i t ih =>
    intro acc x
    simp only [List.foldl_cons, ih, mem_ordInsert, List.mem_cons]
    tauto

theorem length_foldl_ordInsert (key : Nat → Option ℚ) :
    ∀ (is : List Nat) (acc : List Nat),
      (is.foldl (fun a i => ordInsert key i a) acc).length = acc.length + is.length := by
  intro is
  induction is with
  | nil => simp
  | cons i t ih =>
    intro acc
    simp only [List.foldl_cons, ih, length_ordInsert, List.length_cons]
    omega

theorem length_argsortDesc (row : List (Option ℚ)) :
    (argsortDesc row).length = row.length := by
  unfold argsortDesc
  rw [length_foldl_ordInsert]
  simp

theorem mem_argsortDesc (row : List (Option ℚ)) (j : Nat) (h : j < row.length) :
    j ∈ argsortDesc row := by
  unfold argsortDesc
  rw [mem_foldl_ordInsert]
  left
  simpa using h

/-- Metric-name enumeration.  Modelled from the spec: the `Metrics.*`
constants live in `atm/constants.py`, which is not under `src/`; the spec's
metric enumeration for the binary and multiclass modes (sections 4.4, 4.5)
gives these names.  `classWise` stands for the string key `'class_wise'`,
`rocCurve`/`prCurve` for the curve keys. -/
inductive MetricKey where
  | accuracy
  | cohenKappa
  | f1
  | mcc
  | rocAuc
  | ap
  | f1Micro
  | f1MacroAvg
  | rocAucMicro
  | rocAucMacroAvg
  | rankAccuracy
  | rocCurve
  | prCurve
  | classWise
deriving DecidableEq

/-- Serialized curve: three parallel ordered sequences.  For the ROC curve
`xs`/`ys`/`ths` are `fprs`/`tprs`/`thresholds`; for the precision-recall
curve they are `precisions`/`recalls`/`thresholds`. -/
structure Curve where
  xs : List ℚ
  ys : List ℚ
  ths : List ℚ
deriving DecidableEq

/-- Value stored under a metric key: a float (NaN modelled by `nan`), a
curve, or the nested per-class result mapping. -/
inductive MetricValue where
  | nan : MetricValue
  | num : ℚ → MetricValue
  | curve : Curve → MetricValue
  | nested : List (Nat × List (MetricKey × MetricValue)) → MetricValue

/-- Python dict with `MetricKey` keys, as an insertion-ordered association
list without duplicate keys. -/
abbrev ResultDict := List (MetricKey × MetricValue)

/-- Python `d.get(k)`: the value under the first matching key, else `None`. -/
def dget : ResultDict → MetricKey → Option MetricValue
  | [], _ => none
  | (k0, v) :: t, k => if k0 = k then some v else dget t k

/-- Python `d[k] = v`: replace the value in place when the key is present,
else append the new key at the end. -/
def dset : ResultDict → MetricKey → MetricValue → ResultDict
  | [], k, v => [(k, v)]
  | (k0, v0) :: t, k, v => if k0 = k then (k0, v) :: t else (k0, v0) :: dset t k v

/-- Python `d.update(e)`: assign every entry of `e` into `d`, in order. -/
def dupdate (d : ResultDict) (e : ResultDict) : ResultDict :=
  e.foldl (fun acc kv => dset acc kv.1 kv.2) d

theorem dget_dset (d : ResultDict) (k : MetricKey) (v : MetricValue) (k' : MetricKey) :
    dget (dset d k v) k' = if k' = k then some v else dget d k' := by
  induction d with
  | nil =>
    simp only [dset, dget]
    by_cases h : k = k'
    · subst h; simp
    · rw [if_neg h, if_neg (fun h' => h (Eq.symm h'))]
  | cons hd t ih =>
    obtain ⟨k0, v0⟩ := hd
    simp only [dset]
    by_cases h0 : k0 = k
    · subst h0
      simp only [if_pos rfl, dget]
      by_cases h1 : k0 = k'
      · subst h1; simp
      · rw [if_neg h1, if_neg (fun h' => h1 (Eq.symm h')), dget.eq_def]
        simp [h1]
    · rw [if_neg h0]
      show (if k0 = k' then some v0 else dget (dset t k v) k') = _
      by_cases h1 : k0 = k'
      · subst h1
        rw [if_pos rfl, if_neg (fun h' : k0 = k => h0 h'), dget.eq_def]
        simp
      · rw [if_neg h1, ih]
        simp only [dget]
        rw [if_neg h1]

theorem dget_eq_none (d : ResultDict) (k : MetricKey) :
    dget d k = none ↔ ∀ v, (k, v) ∉ d := by
  induction d with
  | nil => simp [dget]
  | cons hd t ih =>
    obtain ⟨k0, v0⟩ := hd
    simp only [dget]
    by_cases h0 : k0 = k
    · subst h0
      simp only [if_pos rfl]
      constructor
      · intro h; cases h
      · intro h
        exact absurd (List.mem_cons_self _ _) (h v0)
    · simp only [if_neg h0, ih]
      constructor
      · intro h v hm
        rcases List.mem_cons.mp hm with he | hm
        · exact h0 (congrArg Prod.fst he).symm
        · exact h v hm
      · intro h v hm
        exact h v (List.mem_cons_of_mem _ hm)

/-- Column `j` of a row-major rational matrix (missing entries read as 0). -/
def colGet (M : List (List ℚ)) (j : Nat) : List ℚ :=
  M.map (fun r => r.getD j 0)

/-- Sum of column `j` of a row-major rational matrix. -/
def colSum (M : List (List ℚ)) (j : Nat) : ℚ :=
  (colGet M j).sum

/-- Number of columns of a row-major matrix, read off the first row
(`mat.shape[1]`). -/
def numCols (M : List (List ℚ)) : Nat :=
  (M.headD []).length

/-- Arithmetic mean of a list of rationals (0 for the empty list, by the
rational convention `0 / 0 = 0`). -/
def listMean (l : List ℚ) : ℚ :=
  l.sum / (l.length : ℚ)

/-- Strip the NaN layer from a probability matrix; used only where the code
has already checked that no entry is NaN, so `getD 0` never fires. -/
def toRatM (M : List (List (Option ℚ))) : List (List ℚ) :=
  M.map (fun r => r.map (fun e => e.getD 0))

/-- Modelled from the spec: sklearn `accuracy_score`, an external statistical
primitive (spec section 6) — the fraction of positions where true and
predicted labels agree. -/
def accuracy_score {α : Type} [DecidableEq α] (y_true y_pred : List α) : ℚ :=
  ((y_true.zip y_pred).countP (fun p => decide (p.1 = p.2)) : ℚ) / (y_true.length : ℚ)

/-- Modelled from the spec: sklearn `cohen_kappa_score`, an external
statistical primitive — `(po - pe) / (1 - pe)` with `po` the observed and
`pe` the chance agreement. -/
def cohen_kappa_score {α : Type} [LinearOrder α] (y_true y_pred : List α) : ℚ :=
  let S : ℚ := (y_true.length : ℚ)
  let po := accuracy_score y_true y_pred
  let cls := sortedDedup (y_true ++ y_pred)
  let pe := ((cls.map (fun c =>
    ((y_true.countP (fun x => decide (x = c)) : ℚ)) *
    ((y_pred.countP (fun x => decide (x = c)) : ℚ)))).sum) / (S * S)
  (po - pe) / (1 - pe)

/-- Modelled from the spec: sklearn binary `f1_score` with positive label 1,
an external statistical primitive — `2 TP / (2 TP + FP + FN)`. -/
def f1_score (y_true y_pred : List ℚ) : ℚ :=
  let pts := y_true.zip y_pred
  let tp := pts.countP (fun p => decide (p.1 = 1 ∧ p.2 = 1))
  let fp := pts.countP (fun p => decide (¬ p.1 = 1 ∧ p.2 = 1))
  let fn := pts.countP (fun p => decide (p.1 = 1 ∧ ¬ p.2 = 1))
  (2 * tp : ℚ) / ((2 * tp + fp + fn : Nat) : ℚ)

/-- Modelled from the spec: sklearn `matthews_corrcoef`, an external
statistical primitive.  The true MCC divides `TP·TN - FP·FN` by the square
root of `(TP+FP)(TP+FN)(TN+FP)(TN+FN)`, which is irrational in general; the
model keeps the exact confusion-matrix dependence, numerator and sign by
dividing by the unrooted product.  No claim inspects MCC's numeric value. -/
def matthews_corrcoef (y_true y_pred : List ℚ) : ℚ :=
  let pts := y_true.zip y_pred
  let tp := pts.countP (fun p => decide (p.1 = 1 ∧ p.2 = 1))
  let fp := pts.countP (fun p => decide (¬ p.1 = 1 ∧ p.2 = 1))
  let fn := pts.countP (fun p => decide (p.1 = 1 ∧ ¬ p.2 = 1))
  let tn := pts.countP (fun p => decide (¬ p.1 = 1 ∧ ¬ p.2 = 1))
  ((tp * tn : ℚ) - (fp * fn : ℚ)) /
    (((tp + fp) * (tp + fn) * (tn + fp) * (tn + fn) : Nat) : ℚ)

/-- True positives of class `c` in a multiclass prediction pair. -/
def clsTP (y_true y_pred : List Nat) (c : Nat) : Nat :=
  (y_true.zip y_pred).countP (fun p => decide (p.1 = c ∧ p.2 = c))

/-- False positives of class `c` in a multiclass prediction pair. -/
def clsFP (y_true y_pred : List Nat) (c : Nat) : Nat :=
  (y_true.zip y_pred).countP (fun p => decide (¬ p.1 = c ∧ p.2 = c))

/-- False negatives of class `c` in a multiclass prediction pair. -/
def clsFN (y_true y_pred : List Nat) (c : Nat) : Nat :=
  (y_true.zip y_pred).countP (fun p => decide (p.1 = c ∧ ¬ p.2 = c))

/-- Modelled from the spec: sklearn `f1_score(average='micro')`, an external
statistical primitive — F1 of the class-wise pooled confusion counts. -/
def f1_score_micro (y_true y_pred : List Nat) : ℚ :=
  let cls := sortedDedup (y_true ++ y_pred)
  let tp : ℚ := ((cls.map (clsTP y_true y_pred)).sum : ℚ)
  let fp : ℚ := ((cls.map (clsFP y_true y_pred)).sum : ℚ)
  let fn : ℚ := ((cls.map (clsFN y_true y_pred)).sum : ℚ)
  let p := tp / (tp + fp)
  let r := tp / (tp + fn)
  2 * p * r / (p + r)

/-- Modelled from the spec: sklearn `f1_score(average='macro')`, an external
statistical primitive — unweighted mean of the per-class F1 scores. -/
def f1_score_macroavg (y_true y_pred : List Nat) : ℚ :=
  let cls := sortedDedup (y_true ++ y_pred)
  listMean (cls.map (fun c =>
    (2 * clsTP y_true y_pred c : ℚ) /
      ((2 * clsTP y_true y_pred c + clsFP y_true y_pred c + clsFN y_true y_pred c : Nat) : ℚ)))

/-- Number of positive samples (label 1) among (label, score) pairs. -/
def posCount (pts : List (ℚ × ℚ)) : Nat :=
  pts.countP (fun p => decide (p.1 = 1))

/-- Number of negative samples among (label, score) pairs. -/
def negCount (pts : List (ℚ × ℚ)) : Nat :=
  pts.countP (fun p => decide (¬ p.1 = 1))

/-- True positives at decision threshold `t`: positives scored at least `t`. -/
def tpAt (pts : List (ℚ × ℚ)) (t : ℚ) : Nat :=
  pts.countP (fun p => decide (p.1 = 1 ∧ t ≤ p.2))

/-- False positives at decision threshold `t`. -/
def fpAt (pts : List (ℚ × ℚ)) (t : ℚ) : Nat :=
  pts.countP (fun p => decide (¬ p.1 = 1 ∧ t ≤ p.2))

/-- Precision at threshold `t` (0 when nothing is predicted positive). -/
def precAt (pts : List (ℚ × ℚ)) (t : ℚ) : ℚ :=
  (tpAt pts t : ℚ) / ((tpAt pts t : ℚ) + (fpAt pts t : ℚ))

/-- Recall at threshold `t`; following the sklearn convention, recall is 1
when there are no positive samples at all. -/
def recAt (pts : List (ℚ × ℚ)) (t : ℚ) : ℚ :=
  if posCount pts = 0 then 1 else (tpAt pts t : ℚ) / (posCount pts : ℚ)

/-- False-positive rate at threshold `t`. -/
def fprAt (pts : List (ℚ × ℚ)) (t : ℚ) : ℚ :=
  (fpAt pts t : ℚ) / (negCount pts : ℚ)

/-- True-positive rate at threshold `t`. -/
def tprAt (pts : List (ℚ × ℚ)) (t : ℚ) : ℚ :=
  (tpAt pts t : ℚ) / (posCount pts : ℚ)

/-- Running sum of the average-precision formula `Σ (R_k - R_{k-1}) P_k`,
walking the thresholds in descending order with `prev` the previous recall. -/
def apGo (pts : List (ℚ × ℚ)) : List ℚ → ℚ → ℚ
  | [], _ => 0
  | t :: rest, prev => (recAt pts t - prev) * precAt pts t + apGo pts rest (recAt pts t)

/-- Modelled from the spec: the average-precision primitive for one binary
label column — the standard uninterpolated `Σ (R_k - R_{k-1}) P_k` over
the distinct scores as thresholds. -/
def binaryAP (y_bin scores : List ℚ) : ℚ :=
  apGo (y_bin.zip scores) (sortedDedupDesc scores) 0

/-- Modelled from the spec: sklearn `average_precision_score` on a
multilabel indicator matrix, an external statistical primitive — the
unweighted (macro) mean of the per-column average precisions. -/
def average_precision_score (y_bin_mat prob_mat : List (List ℚ)) : ℚ :=
  listMean ((List.range (numCols y_bin_mat)).map
    (fun j => binaryAP (colGet y_bin_mat j) (colGet prob_mat j)))

/-- Score of one positive/negative pair in the Mann-Whitney AUC statistic. -/
def pairScore (sp sn : ℚ) : ℚ :=
  if sn < sp then 1 else if sp = sn then 1/2 else 0

/-- Modelled from the spec: the ROC-AUC primitive for one binary label
column — the Mann-Whitney statistic over positive/negative score pairs. -/
def binaryAUC (y_bin scores : List ℚ) : ℚ :=
  let pts := y_bin.zip scores
  let pos := pts.filter (fun p => decide (p.1 = 1))
  let neg := pts.filter (fun p => decide (¬ p.1 = 1))
  ((pos.map (fun p => (neg.map (fun q => pairScore p.2 q.2)).sum)).sum) /
    ((pos.length : ℚ) * (neg.length : ℚ))

/-- Modelled from the spec: sklearn `roc_auc_score` on a multilabel
indicator matrix with the default (macro) averaging, an external
statistical primitive. -/
def roc_auc_score (y_bin_mat prob_mat : List (List ℚ)) : ℚ :=
  listMean ((List.range (numCols y_bin_mat)).map
    (fun j => binaryAUC (colGet y_bin_mat j) (colGet prob_mat j)))

/-- Modelled from the spec: sklearn `roc_auc_score(average='micro')`, an
external statistical primitive — the binary AUC of the flattened
indicator/score columns. -/
def roc_auc_microavg (y_bin_mat prob_mat : List (List ℚ)) : ℚ :=
  binaryAUC (((List.range (numCols y_bin_mat)).map (colGet y_bin_mat)).flatten)
    (((List.range (numCols y_bin_mat)).map (colGet prob_mat)).flatten)

/-- Modelled from the spec: sklearn `roc_auc_score(average='macro')`, an
external statistical primitive — the unweighted mean of per-column AUCs. -/
def roc_auc_macroavg (y_bin_mat prob_mat : List (List ℚ)) : ℚ :=
  listMean ((List.range (numCols y_bin_mat)).map
    (fun j => binaryAUC (colGet y_bin_mat j) (colGet prob_mat j)))

/-- Modelled from the spec: sklearn `roc_curve` with `pos_label=1`, an
external statistical primitive.  The thresholds are the distinct scores in
descending order with one extra leading threshold above the maximum (so the
curve starts at the origin); `fprs`, `tprs` and `thresholds` always have
equal length. -/
def roc_curve (y_true scores : List ℚ) : Curve :=
  let pts := y_true.zip scores
  let ts := match sortedDedupDesc scores with
    | [] => []
    | t :: r => (t + 1) :: t :: r
  ⟨ts.map (fprAt pts), ts.map (tprAt pts), ts⟩

/-- Modelled from the spec: sklearn `precision_recall_curve` with
`pos_label=1`, an external statistical primitive — "from the same library
semantics" (spec 4.3).  The thresholds are the distinct scores in ascending
order; the precision and recall sequences carry one extra final point
`(1, 0)`, so they are one element longer than the thresholds. -/
def precision_recall_curve (y_true scores : List ℚ) : Curve :=
  let pts := y_true.zip scores
  let ts := sortedDedup scores
  ⟨ts.map (precAt pts) ++ [1], ts.map (recAt pts) ++ [0], ts⟩

/-- Embedding of `rank_n_accuracy` (atm/metrics.py:11-35): fraction of
samples whose true label is among the top-`n` ranked classes.  `n < 1` is
treated as a proportion of the class count, rounded like Python's `round`;
otherwise `n` is used directly as the slice bound (the code requires an
integral `n` there, embedded via the floor).  The slice `rankings[:, :n]`
keeps Python's slicing semantics, so out-of-range bounds clamp silently. -/
def rank_n_accuracy (y_true : List Nat) (y_prob_mat : List (List (Option ℚ))) (n : ℚ) : ℚ :=
  let n_classes := (y_prob_mat.headD []).length
  let k : Int := if n < 1 then pyRound ((n_classes : ℚ) * n) else ⌊n⌋
  let rankings := y_prob_mat.map (fun row => pySlice k (argsortDesc row))
  let num_samples := y_true.length
  let correct := (List.range num_samples).countP
    (fun i => decide (y_true.getD i 0 ∈ rankings.getD i []))
  (correct : ℚ) / (num_samples : ℚ)

/-- Embedding of `get_per_class_matrix` (atm/metrics.py:38-50): the
(samples × classes) indicator matrix.  `classes = none` is Python's `None`;
via `classes or np.unique(y)`, `None` and the empty list both fall back to
the sorted distinct observed labels. -/
def get_per_class_matrix {α : Type} [LinearOrder α] (y : List α) (classes : Option (List α)) : List (List ℚ) :=
  let cs := match classes with
    | none => sortedDedup y
    | some l => if l = [] then sortedDedup y else l
  y.map (fun yi => cs.map (fun c => if yi = c then (1 : ℚ) else 0))

/-- Embedding of `get_pr_roc_curves` (atm/metrics.py:53-77): the result dict
holding the ROC curve (`fprs`/`tprs`/`thresholds`) and the precision-recall
curve (`precisions`/`recalls`/`thresholds`). -/
def get_pr_roc_curves (y_true y_pred_probs : List ℚ) : ResultDict :=
  [(MetricKey.rocCurve, MetricValue.curve (roc_curve y_true y_pred_probs)),
   (MetricKey.prCurve, MetricValue.curve (precision_recall_curve y_true y_pred_probs))]

/-- Embedding of `get_metrics_binary` (atm/metrics.py:80-105).  Labels are
rationals restricted to {0, 1} (the multiclass per-class decomposition
passes indicator-matrix columns here); the probability matrix is S × 2 with
NaN as `none`. -/
def get_metrics_binary (y_true y_pred : List ℚ) (y_pred_probs : List (List (Option ℚ)))
    (include_curves : Bool) : ResultDict :=
  let results : ResultDict := [
    (MetricKey.accuracy, MetricValue.num (accuracy_score y_true y_pred)),
    (MetricKey.cohenKappa, MetricValue.num (cohen_kappa_score y_true y_pred)),
    (MetricKey.f1, MetricValue.num (f1_score y_true y_pred)),
    (MetricKey.mcc, MetricValue.num (matthews_corrcoef y_true y_pred)),
    (MetricKey.rocAuc, MetricValue.nan),
    (MetricKey.ap, MetricValue.nan)]
  let all_labels_same := (sortedDedup y_true).length == 1
  let any_probs_nan := y_pred_probs.any (fun row => row.any (fun e => e.isNone))
  if any_probs_nan then results
  else
    let y_true_bin := get_per_class_matrix y_true (some [0, 1])
    let results := dset results MetricKey.ap
      (MetricValue.num (average_precision_score y_true_bin (toRatM y_pred_probs)))
    let results := if all_labels_same then results
      else dset results MetricKey.rocAuc
        (MetricValue.num (roc_auc_score y_true_bin (toRatM y_pred_probs)))
    if include_curves then dupdate results (get_pr_roc_curves y_true (colGet (toRatM y_pred_probs) 1))
    else results

/-- Arguments handed to the ROC-AUC primitive by `get_metrics_multiclass`
(atm/metrics.py:131-135): the indicator matrix over the inferred (present)
classes, and the probability matrix restricted to the columns of those
classes (`y_pred_probs[:, present_classes]`), in the same order. -/
def multiclassAucArgs (y_true : List Nat) (y_pred_probs : List (List (Option ℚ))) :
    List (List ℚ) × List (List ℚ) :=
  (get_per_class_matrix y_true none,
   y_pred_probs.map (fun row => (sortedDedup y_true).map (fun c => (row.getD c none).getD 0)))

/-- Embedding of `get_metrics_multiclass` (atm/metrics.py:108-167). -/
def get_metrics_multiclass (y_true y_pred : List Nat) (y_pred_probs : List (List (Option ℚ)))
    (include_per_class include_curves : Bool) : ResultDict :=
  let results : ResultDict := [
    (MetricKey.accuracy, MetricValue.num (accuracy_score y_true y_pred)),
    (MetricKey.cohenKappa, MetricValue.num (cohen_kappa_score y_true y_pred)),
    (MetricKey.f1Micro, MetricValue.num (f1_score_micro y_true y_pred)),
    (MetricKey.f1MacroAvg, MetricValue.num (f1_score_macroavg y_true y_pred)),
    (MetricKey.rocAucMicro, MetricValue.nan),
    (MetricKey.rocAucMacroAvg, MetricValue.nan),
    (MetricKey.rankAccuracy, MetricValue.nan)]
  let results := dset results MetricKey.rankAccuracy
    (MetricValue.num (rank_n_accuracy y_true y_pred_probs (33/100)))
  let present_classes := sortedDedup y_true
  let all_labels_same := present_classes.length == 1
  let any_probs_nan := y_pred_probs.any (fun row => row.any (fun e => e.isNone))
  let results :=
    if all_labels_same || any_probs_nan then results
    else
      let args := multiclassAucArgs y_true y_pred_probs
      let results := dset results MetricKey.rocAucMicro
        (MetricValue.num (roc_auc_microavg args.1 args.2))
      dset results MetricKey.rocAucMacroAvg
        (MetricValue.num (roc_auc_macroavg args.1 args.2))
  if include_per_class || include_curves then
    let all_classes := List.range (y_pred_probs.headD []).length
    let y_true_bin := get_per_class_matrix y_true (some all_classes)
    let y_pred_bin := get_per_class_matrix y_pred (some all_classes)
    let cw := all_classes.map (fun cls =>
      let class_pred_probs := y_pred_probs.map (fun row =>
        [(row.getD cls none).map (fun q => 1 - q), row.getD cls none])
      (cls, get_metrics_binary (colGet y_true_bin cls) (colGet y_pred_bin cls)
        class_pred_probs include_curves))
    dset results MetricKey.classWise (MetricValue.nested cw)
  else results

/-- A pipeline after `fit`: the interface the evaluation code consumes
(spec section 6).  `stepName` is `pipeline.steps[-1][0]`;
`decision_function` is the S-length score vector used in binary mode and
`decision_function_mat` its S × C form used in multiclass mode (numpy's one
`decision_function` is shape-polymorphic). -/
structure FittedPipeline (α : Type) where
  stepName : String
  predict : List α → List Nat
  predict_proba : List α → List (List (Option ℚ))
  decision_function : List α → List (Option ℚ)
  decision_function_mat : List α → List (List (Option ℚ))

/-- An unfit pipeline: `fit` on a training partition yields the fitted
interface. -/
structure Pipeline (α : Type) where
  fit : List α → List Nat → FittedPipeline α

/-- Numpy fancy indexing `X[index_array]` of a list of samples. -/
def selectRows {α : Type} [Inhabited α] (X : List α) (idx : List Nat) : List α :=
  idx.map (fun i => X.getD i default)

/-- Numpy fancy indexing of a label vector. -/
def selectLabels (y : List Nat) (idx : List Nat) : List Nat :=
  idx.map (fun i => y.getD i 0)

/-- Embedding of `test_pipeline` (atm/metrics.py:170-192): run held-out data
through a fitted pipeline, substituting decision scores for probabilities
for the `sgd` and `pa` estimator kinds, and dispatch to the binary or
multiclass metric set. -/
def test_pipeline {α : Type} (pipeline : FittedPipeline α) (X : List α) (y : List Nat)
    (binary include_per_class include_curves : Bool) : ResultDict :=
  let y_pred := pipeline.predict X
  let y_pred_probs :=
    if pipeline.stepName = "sgd" ∨ pipeline.stepName = "pa" then
      if binary then
        let class_1_distance := pipeline.decision_function X
        class_1_distance.map (fun d => [d.map (fun q => -q), d])
      else pipeline.decision_function_mat X
    else pipeline.predict_proba X
  if binary then
    get_metrics_binary (y.map (fun v => (v : ℚ))) (y_pred.map (fun v => (v : ℚ)))
      y_pred_probs include_curves
  else get_metrics_multiclass y y_pred y_pred_probs include_per_class include_curves

/-- Modelled from the spec: the binary metric enumeration `METRICS_BINARY`
of `atm/constants.py` (not under `src/`), per spec section 4.4. -/
def METRICS_BINARY : List MetricKey :=
  [MetricKey.accuracy, MetricKey.cohenKappa, MetricKey.f1, MetricKey.mcc,
   MetricKey.rocAuc, MetricKey.ap]

/-- Modelled from the spec: the multiclass metric enumeration
`METRICS_MULTICLASS` of `atm/constants.py` (not under `src/`), per spec
section 4.5. -/
def METRICS_MULTICLASS : List MetricKey :=
  [MetricKey.accuracy, MetricKey.cohenKappa, MetricKey.f1Micro, MetricKey.f1MacroAvg,
   MetricKey.rocAucMicro, MetricKey.rocAucMacroAvg, MetricKey.rankAccuracy]

/-- Embedding of `cross_validate_pipeline` (atm/metrics.py:195-229).  The
stratified fold splitter is an external collaborator (spec section 6)
modelled by the list of `(train_indices, test_indices)` pairs it yields;
the loop fits the pipeline on each training partition, evaluates on the
test partition, and appends a summary-table row (one `Option` cell per
metric of the mode's enumeration, `none` when the key is absent) and the
raw result. -/
def cross_validate_pipeline {α : Type} [Inhabited α] (pipeline : Pipeline α)
    (X : List α) (y : List Nat) (binary : Bool)
    (splits : List (List Nat × List Nat))
    (include_per_class include_curves : Bool) :
    List (List (Option MetricValue)) × List ResultDict :=
  let metrics := if binary then METRICS_BINARY else METRICS_MULTICLASS
  splits.foldl (fun acc split =>
    let fitted := pipeline.fit (selectRows X split.1) (selectLabels y split.1)
    let split_results := test_pipeline fitted (selectRows X split.2) (selectLabels y split.2)
      binary include_per_class include_curves
    (acc.1 ++ [metrics.map (fun m => dget split_results m)], acc.2 ++ [split_results]))
    ([], [])

theorem getD_map_of_lt {α β : Type} (f : α → β) (cs : List α) (d : β) :
    ∀ (j : Nat) (hj : j < cs.length), (cs.map f).getD j d = f (cs.get ⟨j, hj⟩) := by
  induction cs with
  | nil => intro j hj; cases hj
  | cons c t ih =>
    intro j hj
    cases j with
    | zero => rfl
    | succ j' => exact ih j' (Nat.lt_of_succ_lt_succ hj)

theorem sum_map_ite_eq_countP {α : Type} (l : List α) (p : α → Prop) [DecidablePred p] :
    (l.map (fun a => if p a then (1 : ℚ) else 0)).sum =
      (l.countP (fun a => decide (p a)) : ℚ) := by
  induction l with
  | nil => simp
  | cons a t ih =>
    rw [List.map_cons, List.sum_cons, List.countP_cons, ih]
    by_cases h : p a
    · simp [h]
      ring
    · simp [h]

theorem tpAt_le_posCount (pts : List (ℚ × ℚ)) (t : ℚ) : tpAt pts t ≤ posCount pts := by
  apply List.countP_mono_left
  intro x _ hx
  simp only [decide_eq_true_eq] at hx ⊢
  exact hx.1

theorem tpAt_antitone (pts : List (ℚ × ℚ)) {t t' : ℚ} (h : t' ≤ t) :
    tpAt pts t ≤ tpAt pts t' := by
  apply List.countP_mono_left
  intro x _ hx
  simp only [decide_eq_true_eq] at hx ⊢
  exact ⟨hx.1, le_trans h hx.2⟩

theorem precAt_nonneg (pts : List (ℚ × ℚ)) (t : ℚ) : 0 ≤ precAt pts t := by
  unfold precAt
  apply div_nonneg
  · positivity
  · positivity

theorem precAt_le_one (pts : List (ℚ × ℚ)) (t : ℚ) : precAt pts t ≤ 1 := by
  unfold precAt
  by_cases h : ((tpAt pts t : ℚ) + (fpAt pts t : ℚ)) = 0
  · rw [h, div_zero]
    norm_num
  · apply div_le_one_of_le
    · have : (0 : ℚ) ≤ (fpAt pts t : ℚ) := by positivity
      linarith
    · positivity

theorem recAt_nonneg (pts : List (ℚ × ℚ)) (t : ℚ) : 0 ≤ recAt pts t := by
  unfold recAt
  split_ifs
  · norm_num
  · positivity

theorem recAt_le_one (pts : List (ℚ × ℚ)) (t : ℚ) : recAt pts t ≤ 1 := by
  unfold recAt
  split_ifs with h
  · exact le_refl 1
  · have hle := tpAt_le_posCount pts t
    apply div_le_one_of_le
    · exact_mod_cast hle
    · positivity

theorem recAt_antitone (pts : List (ℚ × ℚ)) {t t' : ℚ} (h : t' ≤ t) :
    recAt pts t ≤ recAt pts t' := by
  unfold recAt
  split_ifs with h0
  · exact le_refl 1
  · have hpos : (0 : ℚ) < (posCount pts : ℚ) := by
      have : 0 < posCount pts := Nat.pos_of_ne_zero h0
      exact_mod_cast this
    gcongr
    exact_mod_cast tpAt_antitone pts h

theorem apGo_bounds (pts : List (ℚ × ℚ)) :
    ∀ (ts : List ℚ) (prev : ℚ), ts.Pairwise (fun u v => v < u) →
      (∀ t ∈ ts, prev ≤ recAt pts t) → prev ≤ 1 →
      0 ≤ apGo pts ts prev ∧ apGo pts ts prev ≤ 1 - prev := by
  intro ts
  induction ts with
  | nil =>
    intro prev _ _ h1
    constructor
    · exact le_refl 0
    · show (0 : ℚ) ≤ 1 - prev
      linarith
  | cons t rest ih =>
    intro prev hpw hprev h1
    rcases List.pairwise_cons.mp hpw with ⟨hlt, hrest⟩
    have hr0 : prev ≤ recAt pts t := hprev t (List.mem_cons_self t rest)
    have hr1 : recAt pts t ≤ 1 := recAt_le_one pts t
    have hmono : ∀ u ∈ rest, recAt pts t ≤ recAt pts u := by
      intro u hu
      exact recAt_antitone pts (le_of_lt (hlt u hu))
    have IH := ih (recAt pts t) hrest hmono hr1
    have hp0 : 0 ≤ precAt pts t := precAt_nonneg pts t
    have hp1 : precAt pts t ≤ 1 := precAt_le_one pts t
    have hterm0 : 0 ≤ (recAt pts t - prev) * precAt pts t :=
      mul_nonneg (by linarith) hp0
    have hterm1 : (recAt pts t - prev) * precAt pts t ≤ recAt pts t - prev :=
      mul_le_of_le_one_right (by linarith) hp1
    constructor
    · show 0 ≤ (recAt pts t - prev) * precAt pts t + apGo pts rest (recAt pts t)
      linarith [IH.1]
    · show (recAt pts t - prev) * precAt pts t + apGo pts rest (recAt pts t) ≤ 1 - prev
      linarith [IH.2]

theorem binaryAP_bounds (y_bin scores : List ℚ) :
    0 ≤ binaryAP y_bin scores ∧ binaryAP y_bin scores ≤ 1 := by
  unfold binaryAP
  have h := apGo_bounds (y_bin.zip scores) (sortedDedupDesc scores) 0
    (pairwise_sortedDedupDesc scores)
    (fun t _ => recAt_nonneg (y_bin.zip scores) t) (by norm_num)
  constructor
  · exact h.1
  · linarith [h.2]

theorem sum_le_length_of_bounded (l : List ℚ) (h : ∀ x ∈ l, x ≤ 1) :
    l.sum ≤ (l.length : ℚ) := by
  induction l with
  | nil => simp
  | cons x t ih =>
    rw [List.sum_cons, List.length_cons]
    push_cast
    have hx := h x (List.mem_cons_self x t)
    have ht := ih (fun u hu => h u (List.mem_cons_of_mem x hu))
    linarith

theorem listMean_bounds (l : List ℚ) (h : ∀ x ∈ l, 0 ≤ x ∧ x ≤ 1) :
    0 ≤ listMean l ∧ listMean l ≤ 1 := by
  unfold listMean
  rcases List.eq_nil_or_concat l with rfl | _
  · norm_num
  · have hs0 : 0 ≤ l.sum := List.sum_nonneg (fun x hx => (h x hx).1)
    have hs1 : l.sum ≤ (l.length : ℚ) := sum_le_length_of_bounded l (fun x hx => (h x hx).2)
    by_cases hl : l.length = 0
    · rw [hl]
      norm_num
    · have hpos : (0 : ℚ) < (l.length : ℚ) := by
        have : 0 < l.length := Nat.pos_of_ne_zero hl
        exact_mod_cast this
      constructor
      · positivity
      · rw [div_le_one hpos]
        exact hs1

theorem average_precision_score_bounds (y_bin_mat prob_mat : List (List ℚ)) :
    0 ≤ average_precision_score y_bin_mat prob_mat ∧
      average_precision_score y_bin_mat prob_mat ≤ 1 := by
  unfold average_precision_score
  apply listMean_bounds
  intro x hx
  rcases List.mem_map.mp hx with ⟨j, _, rfl⟩
  exact binaryAP_bounds _ _

theorem gpc_none {α : Type} [LinearOrder α] (y : List α) :
    get_per_class_matrix y none =
      y.map (fun yi => (sortedDedup y).map (fun c => if yi = c then (1 : ℚ) else 0)) := rfl

theorem gpc_some_of_ne {α : Type} [LinearOrder α] (y cs : List α) (hcs : cs ≠ []) :
    get_per_class_matrix y (some cs) =
      y.map (fun yi => cs.map (fun c => if yi = c then (1 : ℚ) else 0)) := by
  unfold get_per_class_matrix
  simp [hcs]

theorem gpc_some_nil {α : Type} [LinearOrder α] (y : List α) :
    get_per_class_matrix y (some []) = get_per_class_matrix y none := rfl

theorem colSum_gpc_none_pos {α : Type} [LinearOrder α] (y : List α) (j : Nat)
    (hj : j < (sortedDedup y).length) :
    0 < colSum (get_per_class_matrix y none) j := by
  unfold colSum colGet
  rw [gpc_none, List.map_map]
  have hrw : ∀ yi ∈ y,
      ((fun r : List ℚ => r.getD j 0) ∘
        (fun yi => (sortedDedup y).map (fun c => if yi = c then (1 : ℚ) else 0))) yi =
      (fun yi => if yi = (sortedDedup y).get ⟨j, hj⟩ then (1 : ℚ) else 0) yi := by
    intro yi _
    exact getD_map_of_lt _ _ _ j hj
  rw [List.map_congr_left hrw]
  rw [sum_map_ite_eq_countP y (fun yi => yi = (sortedDedup y).get ⟨j, hj⟩)]
  have hcmem : (sortedDedup y).get ⟨j, hj⟩ ∈ y :=
    (mem_sortedDedup _ y).mp (List.get_mem _ j hj)
  have hpos : 0 < y.countP (fun yi => decide (yi = (sortedDedup y).get ⟨j, hj⟩)) :=
    List.countP_pos.mpr ⟨_, hcmem, by simp⟩
  exact_mod_cast hpos

theorem dget_dset_eq (d : ResultDict) (k : MetricKey) (v : MetricValue) :
    dget (dset d k v) k = some v := by
  rw [dget_dset, if_pos rfl]

theorem dget_dset_ne (d : ResultDict) (k : MetricKey) (v : MetricValue)
    (k' : MetricKey) (h : k' ≠ k) : dget (dset d k v) k' = dget d k' := by
  rw [dget_dset, if_neg h]

/-- C6: with the class set omitted, `get_per_class_matrix` has one column
per sorted distinct observed label and no all-zero column; with an explicit
non-empty class set it has one column per listed class in the listed order,
and classes absent from the labels give all-zero columns. -/
theorem claim_C6 {α : Type} [LinearOrder α] (y cs : List α) (hcs : cs ≠ []) :
    (∀ row ∈ get_per_class_matrix y none, row.length = (sortedDedup y).length) ∧
    (sortedDedup y).Pairwise (· < ·) ∧
    (∀ c, c ∈ sortedDedup y ↔ c ∈ y) ∧
    (∀ j, j < (sortedDedup y).length → 0 < colSum (get_per_class_matrix y none) j) ∧
    (∀ row ∈ get_per_class_matrix y (some cs), row.length = cs.length) ∧
    (∀ (i : Nat) (hi : i < y.length) (j : Nat) (hj : j < cs.length),
      ((get_per_class_matrix y (some cs)).getD i []).getD j 0 =
        if y.get ⟨i, hi⟩ = cs.get ⟨j, hj⟩ then 1 else 0) ∧
    (∀ (j : Nat) (hj : j < cs.length), cs.get ⟨j, hj⟩ ∉ y →
      ∀ row ∈ get_per_class_matrix y (some cs), row.getD j 0 = 0) := by
  refine ⟨?_, pairwise_sortedDedup y, fun c => mem_sortedDedup c y,
    fun j hj => colSum_gpc_none_pos y j hj, ?_, ?_, ?_⟩
  · intro row hrow
    rw [gpc_none] at hrow
    rcases List.mem_map.mp hrow with ⟨yi, _, rfl⟩
    simp
  · intro row hrow
    rw [gpc_some_of_ne y cs hcs] at hrow
    rcases List.mem_map.mp hrow with ⟨yi, _, rfl⟩
    simp
  · intro i hi j hj
    rw [gpc_some_of_ne y cs hcs]
    have hlen : i < (y.map (fun yi => cs.map (fun c => if yi = c then (1 : ℚ) else 0))).length := by
      simpa using hi
    rw [getD_map_of_lt _ y [] i (by simpa using hi)]
    rw [getD_map_of_lt _ cs 0 j hj]
  · intro j hj habs row hrow
    rw [gpc_some_of_ne y cs hcs] at hrow
    rcases List.mem_map.mp hrow with ⟨yi, hyi, rfl⟩
    rw [getD_map_of_lt _ cs 0 j hj]
    have hne : yi ≠ cs.get ⟨j, hj⟩ := by
      intro h
      exact habs (h ▸ hyi)
    rw [if_neg hne]

/-- Witness for C6 at `y = [0, 2]`, `cs = [1, 2]`. -/
theorem claim_C6_witness :
    ([1, 2] : List Nat) ≠ [] ∧
    ((∀ row ∈ get_per_class_matrix ([0, 2] : List Nat) none, row.length = (sortedDedup ([0, 2] : List Nat)).length) ∧
    (sortedDedup ([0, 2] : List Nat)).Pairwise (· < ·) ∧
    (∀ c, c ∈ sortedDedup ([0, 2] : List Nat) ↔ c ∈ ([0, 2] : List Nat)) ∧
    (∀ j, j < (sortedDedup ([0, 2] : List Nat)).length →
      0 < colSum (get_per_class_matrix ([0, 2] : List Nat) none) j) ∧
    (∀ row ∈ get_per_class_matrix ([0, 2] : List Nat) (some [1, 2]), row.length = ([1, 2] : List Nat).length) ∧
    (∀ (i : Nat) (hi : i < ([0, 2] : List Nat).length) (j : Nat) (hj : j < ([1, 2] : List Nat).length),
      ((get_per_class_matrix ([0, 2] : List Nat) (some [1, 2])).getD i []).getD j 0 =
        if ([0, 2] : List Nat).get ⟨i, hi⟩ = ([1, 2] : List Nat).get ⟨j, hj⟩ then 1 else 0) ∧
    (∀ (j : Nat) (hj : j < ([1, 2] : List Nat).length),
      ([1, 2] : List Nat).get ⟨j, hj⟩ ∉ ([0, 2] : List Nat) →
      ∀ row ∈ get_per_class_matrix ([0, 2] : List Nat) (some [1, 2]), row.getD j 0 = 0)) :=
  ⟨by decide, claim_C6 [0, 2] [1, 2] (by decide)⟩

/-- C9: every entry of a per-class matrix is 0 or 1, and with an inferred
class set (classes omitted or empty) every row sums to exactly 1. -/
theorem claim_C9 {α : Type} [LinearOrder α] (y : List α) (classes : Option (List α)) :
    (∀ row ∈ get_per_class_matrix y classes, ∀ e ∈ row, e = 0 ∨ e = 1) ∧
    ((classes = none ∨ classes = some []) →
      ∀ row ∈ get_per_class_matrix y classes, row.sum = 1) := by
  constructor
  · intro row hrow e he
    unfold get_per_class_matrix at hrow
    rcases List.mem_map.mp hrow with ⟨yi, _, rfl⟩
    rcases List.mem_map.mp he with ⟨c, _, rfl⟩
    by_cases h : yi = c
    · right; rw [if_pos h]
    · left; rw [if_neg h]
  · intro hcls row hrow
    have hrow' : row ∈ get_per_class_matrix y none := by
      rcases hcls with rfl | rfl
      · exact hrow
      · exact hrow
    rw [gpc_none] at hrow'
    rcases List.mem_map.mp hrow' with ⟨yi, hyi, rfl⟩
    rw [sum_map_ite_eq_countP (sortedDedup y) (fun c => yi = c)]
    have h1 : (sortedDedup y).countP (fun c => decide (yi = c)) = 1 :=
      countP_eq_one_of_pairwise yi (sortedDedup y) (pairwise_sortedDedup y)
        ((mem_sortedDedup yi y).mpr hyi)
    rw [h1]
    norm_num

/-- Witness for C9 at `y = [0, 2]`, inferred classes. -/
theorem claim_C9_witness :
    (∀ row ∈ get_per_class_matrix ([0, 2] : List Nat) none, ∀ e ∈ row, e = 0 ∨ e = 1) ∧
    ((none = (none : Option (List Nat)) ∨ (none : Option (List Nat)) = some []) →
      ∀ row ∈ get_per_class_matrix ([0, 2] : List Nat) none, row.sum = 1) :=
  claim_C9 [0, 2] none

/-- C10: an explicitly supplied empty class sequence behaves exactly like an
omitted one — the matrix falls back to the sorted distinct observed labels
(and in particular has a positive number of columns for non-empty input). -/
theorem claim_C10 {α : Type} [LinearOrder α] (y : List α) (hy : y ≠ []) :
    get_per_class_matrix y (some []) = get_per_class_matrix y none ∧
    (∀ row ∈ get_per_class_matrix y (some []), row.length = (sortedDedup y).length) ∧
    0 < (sortedDedup y).length := by
  refine ⟨gpc_some_nil y, ?_, ?_⟩
  · intro row hrow
    rw [gpc_some_nil, gpc_none] at hrow
    rcases List.mem_map.mp hrow with ⟨yi, _, rfl⟩
    simp
  · rcases List.exists_cons_of_ne_nil hy with ⟨a, t, rfl⟩
    have ha : a ∈ sortedDedup (a :: t) :=
      (mem_sortedDedup a (a :: t)).mpr (List.mem_cons_self a t)
    exact List.length_pos_of_mem ha

/-- Witness for C10 at `y = [0, 2]`. -/
theorem claim_C10_witness :
    ([0, 2] : List Nat) ≠ [] ∧
    (get_per_class_matrix ([0, 2] : List Nat) (some []) = get_per_class_matrix ([0, 2] : List Nat) none ∧
    (∀ row ∈ get_per_class_matrix ([0, 2] : List Nat) (some []),
      row.length = (sortedDedup ([0, 2] : List Nat)).length) ∧
    0 < (sortedDedup ([0, 2] : List Nat)).length) :=
  ⟨by decide, claim_C10 [0, 2] (by decide)⟩

theorem pySlice_zero {α : Type} (l : List α) : pySlice 0 l = [] := by
  unfold pySlice
  simp

theorem pySlice_all {α : Type} (k : Int) (l : List α)
    (h0 : 0 ≤ k) (hlen : (l.length : Int) ≤ k) : pySlice k l = l := by
  unfold pySlice
  rw [if_pos h0]
  apply List.take_of_length_le
  omega

theorem headD_mem {α : Type} (l : List α) (d : α) (h : l ≠ []) : l.headD d ∈ l := by
  rcases l with _ | ⟨a, t⟩
  · exact absurd rfl h
  · exact List.mem_cons_self a t

/-- C8: with `n = C` (so the derived top-K count is the full class count),
`rank_n_accuracy` returns exactly 1 on every well-formed input: every label
indexes a class column, and the top-C ranking contains every column. -/
theorem claim_C8 (y_true : List Nat) (probs : List (List (Option ℚ))) (C : Nat)
    (hS : y_true ≠ []) (hC : 1 < C)
    (hrows : probs.length = y_true.length)
    (hlen : ∀ r ∈ probs, r.length = C)
    (hlab : ∀ l ∈ y_true, l < C) :
    rank_n_accuracy y_true probs ((C : Nat) : ℚ) = 1 := by
  have hpne : probs ≠ [] := by
    intro h
    rw [h] at hrows
    exact hS (List.eq_nil_of_length_eq_zero hrows.symm)
  have hnc : (probs.headD []).length = C := hlen _ (headD_mem probs [] hpne)
  have hnot : ¬ (((C : Nat) : ℚ) < 1) := by
    rw [not_lt]
    exact_mod_cast hC.le
  simp only [rank_n_accuracy, hnc, if_neg hnot, Int.floor_natCast]
  have hall : ∀ i ∈ List.range y_true.length,
      (fun i => decide (y_true.getD i 0 ∈
        (probs.map (fun row => pySlice ((C : Nat) : Int) (argsortDesc row))).getD i []))
        i = true := by
    intro i hi
    rw [List.mem_range] at hi
    have hip : i < probs.length := by rw [hrows]; exact hi
    simp only
    rw [getD_map_of_lt _ probs [] i hip]
    have hrl : (probs.get ⟨i, hip⟩).length = C := hlen _ (List.get_mem probs i hip)
    have hargs : (argsortDesc (probs.get ⟨i, hip⟩)).length = C := by
      rw [length_argsortDesc, hrl]
    rw [pySlice_all _ _ (by positivity) (by rw [hargs])]
    rw [List.getD_eq_getElem y_true 0 hi]
    have hlt : y_true[i] < C := hlab _ (List.getElem_mem hi)
    have hmem : y_true[i] ∈ argsortDesc (probs.get ⟨i, hip⟩) :=
      mem_argsortDesc _ _ (by rw [hrl]; exact hlt)
    simpa using hmem
  rw [List.countP_eq_length.mpr hall, List.length_range]
  apply div_self
  rw [Nat.cast_ne_zero]
  intro h
  exact hS (List.eq_nil_of_length_eq_zero h)

/-- Witness for C8: two samples, two classes, `n = C = 2`. -/
theorem claim_C8_witness :
    (([0, 1] : List Nat) ≠ [] ∧ 1 < 2 ∧
      ([[some (9/10), some (1/10)], [some (2/10), some (8/10)]] : List (List (Option ℚ))).length = ([0, 1] : List Nat).length ∧
      (∀ r ∈ ([[some (9/10), some (1/10)], [some (2/10), some (8/10)]] : List (List (Option ℚ))), r.length = 2) ∧
      (∀ l ∈ ([0, 1] : List Nat), l < 2)) ∧
    rank_n_accuracy [0, 1] [[some (9/10), some (1/10)], [some (2/10), some (8/10)]] ((2 : Nat) : ℚ) = 1 :=
  ⟨⟨by decide, by decide, by decide, by decide, by decide⟩,
    claim_C8 [0, 1] [[some (9/10), some (1/10)], [some (2/10), some (8/10)]] 2
      (by decide) (by decide) (by decide) (by decide) (by decide)⟩

/-- C5 counterexample: `y_true = [0]`, a 1 × 2 probability matrix and
`n = 1/10` derive the top-K count `K = round(2 · 1/10) = 0 ≤ 0`, yet
`rank_n_accuracy` raises no InvalidConfiguration failure — it silently
returns the value 0 (the empty top-0 ranking contains no label).  This
refutes the claim that an out-of-range K is surfaced as a hard error. -/
theorem claim_C5_cex :
    pyRound (((2 : Nat) : ℚ) * (1/10)) = 0 ∧
    rank_n_accuracy [0] [[some (1/2), some (1/2)]] (1/10) = 0 := by
  constructor
  · norm_num [pyRound, Int.floor_eq_iff]
  · norm_num [rank_n_accuracy, pyRound, Int.floor_eq_iff, pySlice, argsortDesc,
      ordInsert, keyLt, List.range_succ]

/-- C5 amended: for an out-of-range derived top-K count, `rank_n_accuracy`
does not fail; Python slicing silently clamps.  When the derived K is 0 the
result is 0 (empty top-K); when `n ≥ C` the result coincides with the
`n = C` (all-classes) value. -/
theorem claim_C5 (y_true : List Nat) (probs : List (List (Option ℚ))) (n : ℚ) (C : Nat)
    (hne : probs ≠ []) (huni : ∀ r ∈ probs, r.length = C) (hC : 1 ≤ C) :
    (n < 1 → pyRound ((C : ℚ) * n) = 0 → rank_n_accuracy y_true probs n = 0) ∧
    (((C : Nat) : ℚ) ≤ n → rank_n_accuracy y_true probs n = rank_n_accuracy y_true probs ((C : Nat) : ℚ)) := by
  have hnc : (probs.headD []).length = C := huni _ (headD_mem probs [] hne)
  constructor
  · intro hn1 hk0
    simp only [rank_n_accuracy, hnc, if_pos hn1, hk0]
    have hnil : ∀ i : Nat,
        (probs.map (fun row => pySlice 0 (argsortDesc row))).getD i [] = [] := by
      intro i
      by_cases hi : i < probs.length
      · rw [getD_map_of_lt _ probs [] i hi, pySlice_zero]
      · rw [List.getD_eq_default]
        simpa using not_lt.mp hi
    have hzero : (List.range y_true.length).countP
        (fun i => decide (y_true.getD i 0 ∈
          (probs.map (fun row => pySlice 0 (argsortDesc row))).getD i [])) = 0 := by
      apply List.countP_eq_zero.mpr
      intro i _
      rw [hnil i]
      simp
    rw [hzero]
    norm_num
  · intro hCn
    have h1n : ¬ (n < 1) := by
      rw [not_lt]
      calc (1 : ℚ) ≤ ((C : Nat) : ℚ) := by exact_mod_cast hC
        _ ≤ n := hCn
    have h1C : ¬ (((C : Nat) : ℚ) < 1) := by
      rw [not_lt]
      exact_mod_cast hC
    have hfloor : (C : Int) ≤ ⌊n⌋ := Int.le_floor.mpr (by exact_mod_cast hCn)
    simp only [rank_n_accuracy, hnc, if_neg h1n, if_neg h1C, Int.floor_natCast]
    have hmap : probs.map (fun row => pySlice ⌊n⌋ (argsortDesc row)) =
        probs.map (fun row => pySlice ((C : Nat) : Int) (argsortDesc row)) := by
      apply List.map_congr_left
      intro r hr
      have hrl : (argsortDesc r).length = C := by
        rw [length_argsortDesc]
        exact huni r hr
      rw [pySlice_all _ _ (by omega) (by rw [hrl]; exact hfloor),
        pySlice_all _ _ (by positivity) (by rw [hrl])]
    rw [hmap]

/-- Witness for C5's amended statement, exercising both the `K = 0` and the
`K > C` silent-clamp cases on a concrete 1 × 2 matrix. -/
theorem claim_C5_witness :
    ((1 : ℚ)/10 < 1 ∧ pyRound (((2 : Nat) : ℚ) * (1/10)) = 0 ∧
      rank_n_accuracy [0] [[some (1/2), some (1/2)]] (1/10) = 0) ∧
    (((2 : Nat) : ℚ) ≤ 5 ∧
      rank_n_accuracy [0] [[some (1/2), some (1/2)]] 5 =
        rank_n_accuracy [0] [[some (1/2), some (1/2)]] ((2 : Nat) : ℚ)) := by
  have h1 := (claim_C5 [0] [[some (1/2), some (1/2)]] (1/10) 2
    (by decide) (by decide) (by decide)).1
  have h2 := (claim_C5 [0] [[some (1/2), some (1/2)]] 5 2
    (by decide) (by decide) (by decide)).2
  refine ⟨⟨by norm_num, ?_, ?_⟩, ⟨by norm_num, h2 (by norm_num)⟩⟩
  · norm_num [pyRound, Int.floor_eq_iff]
  · exact h1 (by norm_num) (by norm_num [pyRound, Int.floor_eq_iff])

/-- C4 counterexample: at `y_true = [0, 1]`, `scores = [0, 1]` the
precision-recall curve returned by `get_pr_roc_curves` has precision and
recall sequences of length 3 but a threshold sequence of length 2 — under
the library semantics the spec itself invokes, `precision_recall_curve`
appends a final `(1, 0)` point with no threshold, so the three sequences of
the PR curve are not all of equal length. -/
theorem claim_C4_cex :
    dget (get_pr_roc_curves [0, 1] [0, 1]) MetricKey.prCurve =
      some (MetricValue.curve (precision_recall_curve [0, 1] [0, 1])) ∧
    (precision_recall_curve [0, 1] [0, 1]).xs.length = 3 ∧
    (precision_recall_curve [0, 1] [0, 1]).ys.length = 3 ∧
    (precision_recall_curve [0, 1] [0, 1]).ths.length = 2 := by
  refine ⟨rfl, ?_, ?_, ?_⟩ <;> decide

/-- C4 amended: the two curves returned by `get_pr_roc_curves` are triples
of parallel ordered sequences; the ROC curve's three sequences always have
equal length, while the precision-recall curve's precision and recall
sequences have equal length, namely one more than its threshold sequence. -/
theorem claim_C4 (y_true scores : List ℚ) :
    dget (get_pr_roc_curves y_true scores) MetricKey.rocCurve =
      some (MetricValue.curve (roc_curve y_true scores)) ∧
    dget (get_pr_roc_curves y_true scores) MetricKey.prCurve =
      some (MetricValue.curve (precision_recall_curve y_true scores)) ∧
    (roc_curve y_true scores).xs.length = (roc_curve y_true scores).ths.length ∧
    (roc_curve y_true scores).ys.length = (roc_curve y_true scores).ths.length ∧
    (precision_recall_curve y_true scores).xs.length =
      (precision_recall_curve y_true scores).ths.length + 1 ∧
    (precision_recall_curve y_true scores).ys.length =
      (precision_recall_curve y_true scores).ths.length + 1 := by
  refine ⟨rfl, rfl, ?_, ?_, ?_, ?_⟩ <;>
    simp [roc_curve, precision_recall_curve]

/-- C1: a NaN anywhere in the probability matrix leaves ROC-AUC and average
precision as NaN, omits both curve keys even when curves are requested, and
leaves the four label-only metrics exactly as computed from the true and
predicted labels alone. -/
theorem claim_C1 (y_true y_pred : List ℚ) (probs : List (List (Option ℚ))) (ic : Bool)
    (h : (probs.any (fun row => row.any (fun e => e.isNone))) = true) :
    dget (get_metrics_binary y_true y_pred probs ic) MetricKey.rocAuc = some MetricValue.nan ∧
    dget (get_metrics_binary y_true y_pred probs ic) MetricKey.ap = some MetricValue.nan ∧
    dget (get_metrics_binary y_true y_pred probs ic) MetricKey.rocCurve = none ∧
    dget (get_metrics_binary y_true y_pred probs ic) MetricKey.prCurve = none ∧
    dget (get_metrics_binary y_true y_pred probs ic) MetricKey.accuracy =
      some (MetricValue.num (accuracy_score y_true y_pred)) ∧
    dget (get_metrics_binary y_true y_pred probs ic) MetricKey.cohenKappa =
      some (MetricValue.num (cohen_kappa_score y_true y_pred)) ∧
    dget (get_metrics_binary y_true y_pred probs ic) MetricKey.f1 =
      some (MetricValue.num (f1_score y_true y_pred)) ∧
    dget (get_metrics_binary y_true y_pred probs ic) MetricKey.mcc =
      some (MetricValue.num (matthews_corrcoef y_true y_pred)) := by
  simp only [get_metrics_binary, h, if_true]
  exact ⟨rfl, rfl, rfl, rfl, rfl, rfl, rfl, rfl⟩

/-- Witness for C1: a 2 × 2 probability matrix with one NaN entry, curves
requested. -/
theorem claim_C1_witness :
    (([[some (1/2), none], [some (1/2), some (1/2)]] : List (List (Option ℚ))).any
      (fun row => row.any (fun e => e.isNone))) = true ∧
    (dget (get_metrics_binary [0, 1] [0, 1] [[some (1/2), none], [some (1/2), some (1/2)]] true)
        MetricKey.rocAuc = some MetricValue.nan ∧
      dget (get_metrics_binary [0, 1] [0, 1] [[some (1/2), none], [some (1/2), some (1/2)]] true)
        MetricKey.ap = some MetricValue.nan ∧
      dget (get_metrics_binary [0, 1] [0, 1] [[some (1/2), none], [some (1/2), some (1/2)]] true)
        MetricKey.rocCurve = none ∧
      dget (get_metrics_binary [0, 1] [0, 1] [[some (1/2), none], [some (1/2), some (1/2)]] true)
        MetricKey.prCurve = none ∧
      dget (get_metrics_binary [0, 1] [0, 1] [[some (1/2), none], [some (1/2), some (1/2)]] true)
        MetricKey.accuracy = some (MetricValue.num (accuracy_score [0, 1] [0, 1])) ∧
      dget (get_metrics_binary [0, 1] [0, 1] [[some (1/2), none], [some (1/2), some (1/2)]] true)
        MetricKey.cohenKappa = some (MetricValue.num (cohen_kappa_score [0, 1] [0, 1])) ∧
      dget (get_metrics_binary [0, 1] [0, 1] [[some (1/2), none], [some (1/2), some (1/2)]] true)
        MetricKey.f1 = some (MetricValue.num (f1_score [0, 1] [0, 1])) ∧
      dget (get_metrics_binary [0, 1] [0, 1] [[some (1/2), none], [some (1/2), some (1/2)]] true)
        MetricKey.mcc = some (MetricValue.num (matthews_corrcoef [0, 1] [0, 1]))) :=
  ⟨rfl, claim_C1 [0, 1] [0, 1] [[some (1/2), none], [some (1/2), some (1/2)]] true rfl⟩

/-- C3: with a single distinct true class and no NaN in the probabilities,
the binary metric set leaves ROC-AUC as NaN while average precision is
computed and is a finite rational in [0, 1]. -/
theorem claim_C3 (y_true y_pred : List ℚ) (probs : List (List (Option ℚ))) (ic : Bool)
    (h1 : (sortedDedup y_true).length = 1)
    (h2 : (probs.any (fun row => row.any (fun e => e.isNone))) = false) :
    dget (get_metrics_binary y_true y_pred probs ic) MetricKey.rocAuc = some MetricValue.nan ∧
    dget (get_metrics_binary y_true y_pred probs ic) MetricKey.ap =
      some (MetricValue.num (average_precision_score
        (get_per_class_matrix y_true (some [0, 1])) (toRatM probs))) ∧
    0 ≤ average_precision_score (get_per_class_matrix y_true (some [0, 1])) (toRatM probs) ∧
    average_precision_score (get_per_class_matrix y_true (some [0, 1])) (toRatM probs) ≤ 1 := by
  have hb := average_precision_score_bounds (get_per_class_matrix y_true (some [0, 1])) (toRatM probs)
  have hsame : ((sortedDedup y_true).length == 1) = true := by simp [h1]
  simp only [get_metrics_binary]
  rw [h2, if_neg Bool.false_ne_true, hsame, if_pos rfl]
  simp only [dupdate, get_pr_roc_curves, List.foldl_cons, List.foldl_nil]
  cases ic with
  | false =>
    rw [if_neg Bool.false_ne_true]
    refine ⟨?_, ?_, hb.1, hb.2⟩
    · rw [dget_dset_ne _ _ _ _ (by decide)]
      rfl
    · rw [dget_dset_eq]
  | true =>
    rw [if_pos rfl]
    refine ⟨?_, ?_, hb.1, hb.2⟩
    · rw [dget_dset_ne _ _ _ _ (by decide), dget_dset_ne _ _ _ _ (by decide),
        dget_dset_ne _ _ _ _ (by decide)]
      rfl
    · rw [dget_dset_ne _ _ _ _ (by decide), dget_dset_ne _ _ _ _ (by decide), dget_dset_eq]

/-- Witness for C3: all-ones true labels, curves requested, NaN-free 2 × 2
probability matrix. -/
theorem claim_C3_witness :
    (sortedDedup ([1, 1] : List ℚ)).length = 1 ∧
    (([[some 0, some 1], [some 0, some 1]] : List (List (Option ℚ))).any
      (fun row => row.any (fun e => e.isNone))) = false ∧
    (dget (get_metrics_binary [1, 1] [1, 0] [[some 0, some 1], [some 0, some 1]] true)
        MetricKey.rocAuc = some MetricValue.nan ∧
      dget (get_metrics_binary [1, 1] [1, 0] [[some 0, some 1], [some 0, some 1]] true)
        MetricKey.ap = some (MetricValue.num (average_precision_score
          (get_per_class_matrix ([1, 1] : List ℚ) (some [0, 1]))
          (toRatM [[some 0, some 1], [some 0, some 1]]))) ∧
      0 ≤ average_precision_score (get_per_class_matrix ([1, 1] : List ℚ) (some [0, 1]))
          (toRatM [[some 0, some 1], [some 0, some 1]]) ∧
      average_precision_score (get_per_class_matrix ([1, 1] : List ℚ) (some [0, 1]))
          (toRatM [[some 0, some 1], [some 0, some 1]]) ≤ 1) :=
  ⟨by decide, rfl,
    claim_C3 [1, 1] [1, 0] [[some 0, some 1], [some 0, some 1]] true (by decide) rfl⟩

theorem dget_ite_classWise (c : Prop) [Decidable c] (d : ResultDict) (w : MetricValue)
    (k : MetricKey) (hk : k ≠ MetricKey.classWise) :
    dget (if c then dset d MetricKey.classWise w else d) k = dget d k := by
  split_ifs
  · exact dget_dset_ne _ _ _ _ hk
  · rfl

/-- C2: whenever the multiclass metric set reaches its AUC computation (at
least two distinct true classes, no NaN), the indicator matrix it passes has
every column sum positive, and the probability matrix it passes is exactly
the original matrix restricted to the columns of the present classes, in
their (sorted, deduplicated) order. -/
theorem claim_C2 (y_true y_pred : List Nat) (probs : List (List (Option ℚ))) (ipc ic : Bool)
    (h2 : 2 ≤ (sortedDedup y_true).length)
    (hnan : (probs.any (fun row => row.any (fun e => e.isNone))) = false) :
    (∀ j, j < (sortedDedup y_true).length → 0 < colSum (multiclassAucArgs y_true probs).1 j) ∧
    (multiclassAucArgs y_true probs).1 = get_per_class_matrix y_true none ∧
    (multiclassAucArgs y_true probs).2 =
      probs.map (fun row => (sortedDedup y_true).map (fun c => (row.getD c none).getD 0)) ∧
    (sortedDedup y_true).Pairwise (· < ·) ∧
    (∀ c, c ∈ sortedDedup y_true ↔ c ∈ y_true) ∧
    dget (get_metrics_multiclass y_true y_pred probs ipc ic) MetricKey.rocAucMicro =
      some (MetricValue.num (roc_auc_microavg (multiclassAucArgs y_true probs).1
        (multiclassAucArgs y_true probs).2)) ∧
    dget (get_metrics_multiclass y_true y_pred probs ipc ic) MetricKey.rocAucMacroAvg =
      some (MetricValue.num (roc_auc_macroavg (multiclassAucArgs y_true probs).1
        (multiclassAucArgs y_true probs).2)) := by
  have hsame : ((sortedDedup y_true).length == 1) = false := by
    simp only [beq_eq_false_iff_ne, ne_eq]
    omega
  refine ⟨fun j hj => colSum_gpc_none_pos y_true j hj, rfl, rfl,
    pairwise_sortedDedup y_true, fun c => mem_sortedDedup c y_true, ?_, ?_⟩
  · simp only [get_metrics_multiclass]
    rw [hsame, hnan, Bool.false_or, if_neg Bool.false_ne_true]
    rw [dget_ite_classWise _ _ _ _ (by decide)]
    rw [dget_dset_ne _ _ _ _ (by decide), dget_dset_eq]
  · simp only [get_metrics_multiclass]
    rw [hsame, hnan, Bool.false_or, if_neg Bool.false_ne_true]
    rw [dget_ite_classWise _ _ _ _ (by decide)]
    rw [dget_dset_eq]

/-- Witness for C2: two classes both present, NaN-free 2 × 2 matrix. -/
theorem claim_C2_witness :
    2 ≤ (sortedDedup ([0, 1] : List Nat)).length ∧
    (([[some 1, some 0], [some 0, some 1]] : List (List (Option ℚ))).any
      (fun row => row.any (fun e => e.isNone))) = false ∧
    ((∀ j, j < (sortedDedup ([0, 1] : List Nat)).length →
      0 < colSum (multiclassAucArgs [0, 1] [[some 1, some 0], [some 0, some 1]]).1 j) ∧
    (multiclassAucArgs [0, 1] [[some 1, some 0], [some 0, some 1]]).1 =
      get_per_class_matrix ([0, 1] : List Nat) none ∧
    (multiclassAucArgs [0, 1] [[some 1, some 0], [some 0, some 1]]).2 =
      ([[some 1, some 0], [some 0, some 1]] : List (List (Option ℚ))).map
        (fun row => (sortedDedup ([0, 1] : List Nat)).map (fun c => (row.getD c none).getD 0)) ∧
    (sortedDedup ([0, 1] : List Nat)).Pairwise (· < ·) ∧
    (∀ c, c ∈ sortedDedup ([0, 1] : List Nat) ↔ c ∈ ([0, 1] : List Nat)) ∧
    dget (get_metrics_multiclass [0, 1] [0, 1] [[some 1, some 0], [some 0, some 1]] false false)
        MetricKey.rocAucMicro =
      some (MetricValue.num (roc_auc_microavg
        (multiclassAucArgs [0, 1] [[some 1, some 0], [some 0, some 1]]).1
        (multiclassAucArgs [0, 1] [[some 1, some 0], [some 0, some 1]]).2)) ∧
    dget (get_metrics_multiclass [0, 1] [0, 1] [[some 1, some 0], [some 0, some 1]] false false)
        MetricKey.rocAucMacroAvg =
      some (MetricValue.num (roc_auc_macroavg
        (multiclassAucArgs [0, 1] [[some 1, some 0], [some 0, some 1]]).1
        (multiclassAucArgs [0, 1] [[some 1, some 0], [some 0, some 1]]).2))) :=
  ⟨by decide, rfl, claim_C2 [0, 1] [0, 1] [[some 1, some 0], [some 0, some 1]] false false
    (by decide) rfl⟩

theorem foldl_append_pair {β γ δ : Type} (f : δ → γ) (g : δ → β) :
    ∀ (l : List δ) (a : List γ) (b : List β),
      l.foldl (fun acc x => (acc.1 ++ [f x], acc.2 ++ [g x])) (a, b) =
        (a ++ l.map f, b ++ l.map g) := by
  intro l
  induction l with
  | nil => intro a b; simp
  | cons x t ih =>
    intro a b
    simp only [List.foldl_cons, List.map_cons]
    rw [ih]
    simp

/-- C7: a cross-validation run over the yielded splits returns a summary
table with exactly one row per fold in fold order, each row listing one
`Option` cell per metric of the mode's enumeration (`none` exactly when the
key is absent from that fold's result dict), together with the raw per-fold
result list of the same length and order. -/
theorem claim_C7 {α : Type} [Inhabited α] (pipeline : Pipeline α) (X : List α) (y : List Nat)
    (binary : Bool) (splits : List (List Nat × List Nat)) (ipc ic : Bool) :
    (cross_validate_pipeline pipeline X y binary splits ipc ic).1.length = splits.length ∧
    (cross_validate_pipeline pipeline X y binary splits ipc ic).2.length = splits.length ∧
    (cross_validate_pipeline pipeline X y binary splits ipc ic).2 =
      splits.map (fun split => test_pipeline
        (pipeline.fit (selectRows X split.1) (selectLabels y split.1))
        (selectRows X split.2) (selectLabels y split.2) binary ipc ic) ∧
    (cross_validate_pipeline pipeline X y binary splits ipc ic).1 =
      (cross_validate_pipeline pipeline X y binary splits ipc ic).2.map
        (fun r => (if binary then METRICS_BINARY else METRICS_MULTICLASS).map
          (fun m => dget r m)) ∧
    (∀ r ∈ (cross_validate_pipeline pipeline X y binary splits ipc ic).2,
      ∀ m : MetricKey, dget r m = none ↔ ∀ v, (m, v) ∉ r) := by
  have h : cross_validate_pipeline pipeline X y binary splits ipc ic =
      (splits.map (fun split => (if binary then METRICS_BINARY else METRICS_MULTICLASS).map
          (fun m => dget (test_pipeline
            (pipeline.fit (selectRows X split.1) (selectLabels y split.1))
            (selectRows X split.2) (selectLabels y split.2) binary ipc ic) m)),
       splits.map (fun split => test_pipeline
          (pipeline.fit (selectRows X split.1) (selectLabels y split.1))
          (selectRows X split.2) (selectLabels y split.2) binary ipc ic)) := by
    simp only [cross_validate_pipeline]
    rw [foldl_append_pair]
    simp
  refine ⟨?_, ?_, ?_, ?_, ?_⟩
  · rw [h]; simp
  · rw [h]; simp
  · rw [h]
  · rw [h]
    simp [List.map_map]
  · intro r _ m
    exact dget_eq_none r m
